import Mathlib

/-!
Verification development for easy3d SplineCurveInterpolation
(src/easy3d/core/spline_curve_interpolation.h).

The curve interpolator is a template over a point type supplying indexable
coordinates, a dimension count, and a distance function.  We embed points as
lists of rationals and pass the distance function explicitly, mirroring the
template parameterization.  The scalar solver SplineInterpolation lives in
easy3d/core/spline_interpolation.h, which is not part of the sources here;
it is modelled from the specification's collaborator contract (a configure /
fit / evaluate interface producing a piecewise-cubic or piecewise-linear
interpolant of scalar samples, with boundary conditions and optional linear
extrapolation).
-/

namespace Easy3d

/-- A point: an indexable tuple of scalar coordinates (embedding of the
template parameter Point_t; coordinates are exact rationals). -/
abbrev Pt := List ℚ

/-- Modelled from the spec: the scalar solver's own boundary-condition
vocabulary (first-derivative-clamped or second-derivative-clamped),
mirroring SplineInterpolation::BoundaryType. -/
inductive SolverBC where
  | first_deriv : SolverBC
  | second_deriv : SolverBC

/-- Modelled from the spec: the state of a scalar spline solver
(SplineInterpolation, absent from src/): boundary-condition kind/value on
each side, the linear-extrapolation flag, the fitted parameter and sample
sequences, and the cubic-vs-linear fitting flag. Defaults mirror the
curve layer's documented defaults (natural spline, no extrapolation). -/
structure SplineInterpolation where
  left : SolverBC := SolverBC.second_deriv
  right : SolverBC := SolverBC.second_deriv
  left_value : ℚ := 0
  right_value : ℚ := 0
  force_linear_extrapolation : Bool := false
  m_x : List ℚ := []
  m_y : List ℚ := []
  m_cubic : Bool := true

instance : Inhabited SplineInterpolation := ⟨{}⟩

/-- Modelled from the spec: the solver's configure operation stores the
boundary-condition kinds/values and the linear-extrapolation flag. -/
def SplineInterpolation.set_boundary (sp : SplineInterpolation) (l : SolverBC) (lv : ℚ)
    (r : SolverBC) (rv : ℚ) (lin : Bool) : SplineInterpolation :=
  { sp with left := l, right := r, left_value := lv, right_value := rv,
            force_linear_extrapolation := lin }

/-- Modelled from the spec: the solver's fit operation selects cubic
fitting by default when the caller omits the flag (the spec's
default-cubic convention; the curve layer's set_points calls set_data
with only the parameter and sample sequences). -/
def SplineInterpolation.cubicDefault : Bool := true

/-- Modelled from the spec: the solver's fit operation stores the
parameter sequence, the sample sequence and the fitting flag, replacing
any prior fit. -/
def SplineInterpolation.set_data (sp : SplineInterpolation) (x y : List ℚ)
    (cubic : Bool) : SplineInterpolation :=
  { sp with m_x := x, m_y := y, m_cubic := cubic }

/-- Modelled from the spec: one row (sub-diagonal, diagonal,
super-diagonal, right-hand side) of the tridiagonal system determining
the spline's second derivatives at the knots. -/
def mkRows (l : SolverBC) (lv : ℚ) (r : SolverBC) (rv : ℚ)
    (x y : List ℚ) : List (ℚ × ℚ × ℚ × ℚ) :=
  let n := x.length
  let X := fun i => x.getD i 0
  let Y := fun i => y.getD i 0
  let h := fun i => X (i + 1) - X i
  (List.range n).map fun i =>
    if i = 0 then
      match l with
      | SolverBC.second_deriv => (0, 1, 0, lv)
      | SolverBC.first_deriv => (0, h 0 / 3, h 0 / 6, (Y 1 - Y 0) / h 0 - lv)
    else if i = n - 1 then
      match r with
      | SolverBC.second_deriv => (0, 1, 0, rv)
      | SolverBC.first_deriv =>
          (h (n - 2) / 6, h (n - 2) / 3, 0, rv - (Y (n - 1) - Y (n - 2)) / h (n - 2))
    else
      (h (i - 1) / 6, (h (i - 1) + h i) / 3, h i / 6,
        (Y (i + 1) - Y i) / h i - (Y i - Y (i - 1)) / h (i - 1))

/-- Forward sweep of the Thomas algorithm for a tridiagonal system:
given the previous transformed super-diagonal and right-hand side,
produce the transformed rows. -/
def sweep (pc pd : ℚ) : List (ℚ × ℚ × ℚ × ℚ) → List (ℚ × ℚ)
  | [] => []
  | (a, b, c, d) :: rest =>
      let den := b - a * pc
      let c2 := c / den
      let d2 := (d - a * pd) / den
      (c2, d2) :: sweep c2 d2 rest

/-- Back substitution of the Thomas algorithm. -/
def backSub : List (ℚ × ℚ) → List ℚ
  | [] => []
  | (c, d) :: rest =>
      let xs := backSub rest
      (d - c * xs.headD 0) :: xs

/-- Solve a tridiagonal system given as rows (sub, diag, super, rhs). -/
def triSolve (rows : List (ℚ × ℚ × ℚ × ℚ)) : List ℚ :=
  backSub (sweep 0 0 rows)

/-- Modelled from the spec: the second derivatives of the fitted function
at the knots — the tridiagonal solution for a cubic fit, all zeros for a
piecewise-linear fit (or when fewer than two samples are present). -/
def SplineInterpolation.coeffsM (sp : SplineInterpolation) : List ℚ :=
  if sp.m_cubic = true ∧ 2 ≤ sp.m_x.length then
    triSolve (mkRows sp.left sp.left_value sp.right sp.right_value sp.m_x sp.m_y)
  else
    List.replicate sp.m_x.length 0

/-- Modelled from the spec: value of the spline on segment i in the
standard second-derivative form; at either knot of the segment it equals
the corresponding sample by construction. -/
def segEval (x y M : List ℚ) (i : ℕ) (t : ℚ) : ℚ :=
  let xi := x.getD i 0
  let xi1 := x.getD (i + 1) 0
  let yi := y.getD i 0
  let yi1 := y.getD (i + 1) 0
  let mi := M.getD i 0
  let mi1 := M.getD (i + 1) 0
  let h := xi1 - xi
  mi * ((xi1 - t) * (xi1 - t) * (xi1 - t)) / (6 * h)
    + mi1 * ((t - xi) * (t - xi) * (t - xi)) / (6 * h)
    + (yi - mi * (h * h) / 6) * ((xi1 - t) / h)
    + (yi1 - mi1 * (h * h) / 6) * ((t - xi) / h)

/-- Modelled from the spec: derivative of the spline on segment i, used
for the tangent-line extension at the domain boundaries. -/
def segDeriv (x y M : List ℚ) (i : ℕ) (t : ℚ) : ℚ :=
  let xi := x.getD i 0
  let xi1 := x.getD (i + 1) 0
  let yi := y.getD i 0
  let yi1 := y.getD (i + 1) 0
  let mi := M.getD i 0
  let mi1 := M.getD (i + 1) 0
  let h := xi1 - xi
  mi1 * ((t - xi) * (t - xi)) / (2 * h) - mi * ((xi1 - t) * (xi1 - t)) / (2 * h)
    + (yi1 - yi) / h - (mi1 - mi) * h / 6

/-- Index of the segment containing an interior parameter t: the largest
i with knot i at most t, among the segment start knots. -/
def findSeg (x : List ℚ) (t : ℚ) : ℕ :=
  ((x.take (x.length - 1)).filter fun xi => decide (xi ≤ t)).length - 1

/-- Modelled from the spec: extension of the fitted function beyond a
boundary knot — the tangent line at the boundary when linear
extrapolation is requested, and otherwise a quadratic continuation
carrying the boundary curvature. At the boundary knot itself the value
is the boundary sample either way. -/
def boundaryExtend (flag : Bool) (yb d m tb t : ℚ) : ℚ :=
  yb + d * (t - tb) + (if flag = true then 0 else m / 2 * ((t - tb) * (t - tb)))

/-- Modelled from the spec: evaluation of the fitted scalar function at a
parameter t — boundary extension outside the knot range, segment
evaluation inside. -/
def splineEval (flag : Bool) (x y M : List ℚ) (t : ℚ) : ℚ :=
  if x.length = 0 then 0
  else if x.getD (x.length - 1) 0 ≤ t then
    boundaryExtend flag (y.getD (x.length - 1) 0)
      (segDeriv x y M (x.length - 2) (x.getD (x.length - 1) 0))
      (M.getD (x.length - 1) 0) (x.getD (x.length - 1) 0) t
  else if t ≤ x.getD 0 0 then
    boundaryExtend flag (y.getD 0 0) (segDeriv x y M 0 (x.getD 0 0))
      (M.getD 0 0) (x.getD 0 0) t
  else
    segEval x y M (findSeg x t) t

/-- Modelled from the spec: the solver's evaluate operation
(SplineInterpolation::operator()). -/
def SplineInterpolation.evaluate (sp : SplineInterpolation) (t : ℚ) : ℚ :=
  splineEval sp.force_linear_extrapolation sp.m_x sp.m_y sp.coeffsM t

/-- Chord-length accumulation loop of set_points: emits the running
parameter for the current point, then continues with the accumulator
advanced by the distance to the next point. -/
def chordAux (dist : Pt → Pt → ℚ) : Pt → List Pt → ℚ → List ℚ
  | _, [], t => [t]
  | prev, q :: qs, t => t :: chordAux dist q qs (t + dist prev q)

/-- The cumulative chord-length parameterization T computed by
set_points: T[0] = 0, T[i] = T[i-1] + distance(point[i-1], point[i]). -/
def chordParams (dist : Pt → Pt → ℚ) : List Pt → List ℚ
  | [] => []
  | p :: ps => chordAux dist p ps 0

/-- Boundary-condition kinds of the curve layer
(SplineCurveInterpolation::BoundaryType, header lines 61-64). -/
inductive BoundaryType where
  | first_deriv : BoundaryType
  | second_deriv : BoundaryType
deriving DecidableEq

/-- State of SplineCurveInterpolation (header lines 90-101): boundary
configuration, dimension, per-axis solver instances and total chord
length. -/
structure SplineCurveInterpolation where
  left : BoundaryType := BoundaryType.second_deriv
  right : BoundaryType := BoundaryType.second_deriv
  left_value : ℚ := 0
  right_value : ℚ := 0
  linear_extrapolation : Bool := false
  dim : ℕ := 0
  interpolators : List SplineInterpolation := []
  total_length : ℚ := 0

instance : Inhabited SplineCurveInterpolation := ⟨{}⟩

/-- The default constructor (header lines 70-73): zero-curvature boundary
conditions at both ends, no linear extrapolation, no fitted state. -/
def SplineCurveInterpolation.init : SplineCurveInterpolation := {}

/-- Translation of the curve layer's boundary kind into the solver's
vocabulary, mirroring the conditional at header lines 150 and 152. -/
def toSolverBC (b : BoundaryType) : SolverBC :=
  if b = BoundaryType.first_deriv then SolverBC.first_deriv else SolverBC.second_deriv

/-- SplineCurveInterpolation::set_boundary (header lines 108-120): asserts
that set_points has not happened yet (interpolators_.size() == 0), then
stores the boundary kinds, values and the linear-extrapolation flag.  The
debug assertion is embedded as the failure case of an Option. -/
def SplineCurveInterpolation.set_boundary (s : SplineCurveInterpolation)
    (l : BoundaryType) (lv : ℚ) (r : BoundaryType) (rv : ℚ) (lin : Bool) :
    Option SplineCurveInterpolation :=
  if s.interpolators.length = 0 then
    some { s with left := l, right := r, left_value := lv, right_value := rv,
                  linear_extrapolation := lin }
  else
    none

/-- SplineCurveInterpolation::set_points (header lines 123-159): returns
unchanged on an empty input; otherwise records the first point's
dimension, computes the chord-length parameterization and the total
length, resizes the solver container to the dimension, and configures and
fits each per-axis solver.  The solver configure call receives
cubic_spline as its linear-extrapolation argument and the fit call omits
the fitting flag (hence the solver default), exactly as in the source. -/
def SplineCurveInterpolation.set_points (s : SplineCurveInterpolation)
    (dist : Pt → Pt → ℚ) (points : List Pt) (cubic_spline : Bool) :
    SplineCurveInterpolation :=
  if points.isEmpty then s
  else
    let dim := (points.headD []).length
    let T := chordParams dist points
    let resized := s.interpolators.take dim
      ++ List.replicate (dim - s.interpolators.length) default
    { s with
      dim := dim,
      total_length := T.getD (T.length - 1) 0,
      interpolators := (List.range dim).map fun j =>
        ((resized.getD j default).set_boundary
            (toSolverBC s.left) s.left_value (toSolverBC s.right) s.right_value
            cubic_spline).set_data
          T (points.map fun p => p.getD j 0) SplineInterpolation.cubicDefault }

/-- SplineCurveInterpolation::eval_f (header lines 162-168): builds the
result point coordinate-wise by evaluating solver i at u * total_length
for every axis i below the stored dimension. -/
def SplineCurveInterpolation.eval_f (s : SplineCurveInterpolation) (u : ℚ) : Pt :=
  (List.range s.dim).map fun i =>
    (s.interpolators.getD i default).evaluate (u * s.total_length)

/-- The discrete metric on points, a concrete instance of the distance
capability required of the point type. -/
def dDisc (p q : Pt) : ℚ := if p = q then 0 else 1

/-- Exact rational square root helper for concrete examples (exact on
perfect squares, which is all the examples use). -/
def ratSqrt (a : ℚ) : ℚ := (Nat.sqrt a.num.toNat : ℚ) / (Nat.sqrt a.den : ℚ)

/-- Euclidean distance on rational points (exact on the examples used
here), a concrete instance of the distance capability of the point
type. -/
def distEx (p q : Pt) : ℚ :=
  ratSqrt (((List.zip p q).map fun ab => (ab.1 - ab.2) * (ab.1 - ab.2)).sum)

/-- The example point sequence of the specification: three 2D points
with unit chord lengths, parameterization [0, 1, 2]. -/
def examplePoints : List Pt := [[0, 0], [1, 0], [1, 1]]

/-- A call against the curve interpolator: configure boundary conditions,
fit a point sequence, or evaluate at a parameter. -/
inductive Op where
  | bset (l : BoundaryType) (lv : ℚ) (r : BoundaryType) (rv : ℚ) (lin : Bool) : Op
  | pset (pts : List Pt) (cs : Bool) : Op
  | evalAt (u : ℚ) : Op

/-- Execution of a call sequence from a state; a failed assertion in
set_boundary aborts the sequence (evaluation calls do not change the
state). -/
def run (dist : Pt → Pt → ℚ) : SplineCurveInterpolation → List Op →
    Option SplineCurveInterpolation
  | s, [] => some s
  | s, Op.bset l lv r rv lin :: rest =>
      match s.set_boundary l lv r rv lin with
      | some s2 => run dist s2 rest
      | none => none
  | s, Op.pset pts cs :: rest => run dist (s.set_points dist pts cs) rest
  | s, Op.evalAt _ :: rest => run dist s rest

/-- Erase the linear-extrapolation argument of configuration calls; two
call sequences are identical except for those arguments exactly when
their erasures coincide. -/
def stripLinOp : Op → Op
  | Op.bset l lv r rv _ => Op.bset l lv r rv false
  | o => o

/-- Erase the stored linear-extrapolation flag of a state. -/
def stripLinState (s : SplineCurveInterpolation) : SplineCurveInterpolation :=
  { s with linear_extrapolation := false }

/-- The state reached by the witness call sequence of the solver-count
invariant: boundary configuration followed by a two-point fit. -/
def c10State : SplineCurveInterpolation :=
  SplineCurveInterpolation.set_points
    { SplineCurveInterpolation.init with
        left := BoundaryType.first_deriv
        right := BoundaryType.second_deriv
        left_value := 1
        right_value := 0
        linear_extrapolation := true }
    dDisc [[0], [1]] true

theorem getD_map_lt {α β : Type} (f : α → β) (l : List α) (i : ℕ) (d : β) (e : α)
    (h : i < l.length) : (l.map f).getD i d = f (l.getD i e) := by
  induction l generalizing i with
  | nil => simp at h
  | cons a t ih =>
      cases i with
      | zero => simp
      | succ k =>
          simp only [List.map_cons, List.getD_cons_succ]
          exact ih k (by simpa using h)

theorem getD_range_map {β : Type} (f : ℕ → β) (n j : ℕ) (d : β) (h : j < n) :
    ((List.range n).map f).getD j d = f j := by
  have := getD_map_lt f (List.range n) j d 0 (by simpa using h)
  rw [this, List.getD_eq_getElem _ _ (by simpa using h)]
  simp

theorem map_range_coord (l : Pt) (g : ℕ → ℚ)
    (h : ∀ j, j < l.length → g j = l.getD j 0) : (List.range l.length).map g = l := by
  apply List.ext_getElem
  · simp
  · intro j hj hj2
    have hjl : j < l.length := hj2
    have h1 : ((List.range l.length).map g).getD j 0 = g j :=
      getD_range_map g l.length j 0 hjl
    have h2 : ((List.range l.length).map g).getD j 0 = ((List.range l.length).map g)[j] :=
      List.getD_eq_getElem _ _ hj
    rw [← h2, h1, h j hjl, List.getD_eq_getElem _ _ hjl]

theorem getD_last_eq_getLastD {α : Type} (l : List α) (d : α) (h : l ≠ []) :
    l.getD (l.length - 1) d = l.getLastD d := by
  have hl : l.length - 1 < l.length := by
    cases l with
    | nil => simp at h
    | cons a t => simp
  rw [List.getD_eq_getElem _ _ hl, List.getLastD_eq_getLast?,
    List.getLast?_eq_getLast _ h, Option.getD_some, List.getLast_eq_getElem]

theorem getLastD_mem {α : Type} (l : List α) (d : α) (h : l ≠ []) : l.getLastD d ∈ l := by
  rw [List.getLastD_eq_getLast?, List.getLast?_eq_getLast _ h, Option.getD_some]
  exact List.getLast_mem h

theorem getLastD_all_eq (p : Pt) (ps : List Pt) (h : ∀ q ∈ ps, q = p) :
    (p :: ps).getLastD [] = p := by
  induction ps generalizing p with
  | nil => simp
  | cons b r ih =>
      have hb : b = p := h b (by simp)
      have := ih b (fun q hq => by rw [h q (by simp [hq]), hb])
      simpa [List.getLastD_cons, hb] using this

theorem chordAux_nil (dist : Pt → Pt → ℚ) (p : Pt) (t : ℚ) :
    chordAux dist p [] t = [t] := rfl

theorem chordAux_cons (dist : Pt → Pt → ℚ) (p q : Pt) (qs : List Pt) (t : ℚ) :
    chordAux dist p (q :: qs) t = t :: chordAux dist q qs (t + dist p q) := rfl

theorem chordAux_length (dist : Pt → Pt → ℚ) (p : Pt) (ps : List Pt) (t : ℚ) :
    (chordAux dist p ps t).length = ps.length + 1 := by
  induction ps generalizing p t with
  | nil => simp [chordAux]
  | cons q qs ih => simp [chordAux, ih]

theorem chordAux_head (dist : Pt → Pt → ℚ) (p : Pt) (ps : List Pt) (t : ℚ) :
    (chordAux dist p ps t).getD 0 0 = t := by
  cases ps <;> simp [chordAux]

theorem chordAux_last_ge (dist : Pt → Pt → ℚ) (hnn : ∀ a b, 0 ≤ dist a b)
    (p : Pt) (ps : List Pt) (t : ℚ) :
    t ≤ (chordAux dist p ps t).getD ((chordAux dist p ps t).length - 1) 0 := by
  induction ps generalizing p t with
  | nil => simp [chordAux]
  | cons q qs ih =>
      have hlen : (chordAux dist q qs (t + dist p q)).length = qs.length + 1 :=
        chordAux_length dist q qs _
      have step : t ≤ t + dist p q := by
        have := hnn p q
        linarith
      have := ih q (t + dist p q)
      calc t ≤ t + dist p q := step
        _ ≤ _ := this
        _ = (chordAux dist p (q :: qs) t).getD ((chordAux dist p (q :: qs) t).length - 1) 0 := by
            simp [chordAux, hlen, chordAux_length]

theorem chordAux_rec (dist : Pt → Pt → ℚ) (p : Pt) (ps : List Pt) (t : ℚ) (i : ℕ)
    (h : i + 1 < (chordAux dist p ps t).length) :
    (chordAux dist p ps t).getD (i + 1) 0 =
      (chordAux dist p ps t).getD i 0 +
        dist ((p :: ps).getD i []) ((p :: ps).getD (i + 1) []) := by
  induction ps generalizing p t i with
  | nil => simp [chordAux] at h
  | cons q qs ih =>
      cases i with
      | zero =>
          have hh := chordAux_head dist q qs (t + dist p q)
          simp only [chordAux_cons, List.getD_cons_succ, List.getD_cons_zero]
          exact hh
      | succ k =>
          have hk : k + 1 < (chordAux dist q qs (t + dist p q)).length := by
            rw [chordAux_length] at h ⊢
            simp only [List.length_cons] at h
            omega
          have hrec := ih q (t + dist p q) k hk
          simp only [chordAux_cons, List.getD_cons_succ]
          exact hrec

theorem chordAux_zero_all_eq (dist : Pt → Pt → ℚ) (hnn : ∀ a b, 0 ≤ dist a b)
    (hsep : ∀ a b, dist a b = 0 → a = b) (p : Pt) (ps : List Pt) (t : ℚ)
    (h : (chordAux dist p ps t).getD ((chordAux dist p ps t).length - 1) 0 = t) :
    ∀ q ∈ ps, q = p := by
  induction ps generalizing p t with
  | nil => simp
  | cons q qs ih =>
      have hlen : (chordAux dist q qs (t + dist p q)).length = qs.length + 1 :=
        chordAux_length dist q qs _
      have hlast : (chordAux dist q qs (t + dist p q)).getD
          ((chordAux dist q qs (t + dist p q)).length - 1) 0 = t := by
        have := h
        simpa [chordAux, hlen, chordAux_length] using this
      have hge : t + dist p q ≤ t := by
        have := chordAux_last_ge dist hnn q qs (t + dist p q)
        rw [hlast] at this
        exact this
      have hd0 : dist p q = 0 := by
        have := hnn p q
        linarith
      have hqp : q = p := (hsep p q hd0).symm
      intro r hr
      rcases List.mem_cons.mp hr with hr1 | hr2
      · rw [hr1]
        exact hqp
      · have hlast2 : (chordAux dist q qs (t + dist p q)).getD
            ((chordAux dist q qs (t + dist p q)).length - 1) 0 = t + dist p q := by
          rw [hlast, hd0, add_zero]
        have hrp := ih q (t + dist p q) hlast2 r hr2
        rw [hrp, hqp]

theorem chordAux_const (dist : Pt → Pt → ℚ) (p : Pt) (ps : List Pt) (t : ℚ)
    (hzero : dist p p = 0) (hall : ∀ q ∈ ps, q = p) :
    chordAux dist p ps t = List.replicate (ps.length + 1) t := by
  induction ps generalizing t with
  | nil => simp [chordAux]
  | cons q qs ih =>
      have hq : q = p := hall q (by simp)
      have hqs : ∀ r ∈ qs, r = p := fun r hr => hall r (by simp [hr])
      rw [chordAux_cons, hq, hzero, add_zero, ih t hqs]
      simp [List.replicate_succ]

theorem boundaryExtend_self (flag : Bool) (yb d m tb : ℚ) :
    boundaryExtend flag yb d m tb tb = yb := by
  simp [boundaryExtend]

theorem splineEval_at_last (flag : Bool) (x y M : List ℚ) (hx : x.length ≠ 0) :
    splineEval flag x y M (x.getD (x.length - 1) 0) = y.getD (x.length - 1) 0 := by
  rw [splineEval, if_neg hx, if_pos (le_refl _), boundaryExtend_self]

theorem splineEval_at_head (flag : Bool) (x y M : List ℚ) (hx : x.length ≠ 0)
    (hlt : x.getD 0 0 < x.getD (x.length - 1) 0) :
    splineEval flag x y M (x.getD 0 0) = y.getD 0 0 := by
  rw [splineEval, if_neg hx, if_neg (by exact not_le.mpr hlt), if_pos (le_refl _),
    boundaryExtend_self]

theorem solver_config (sp : SplineInterpolation) (l : SolverBC) (lv : ℚ) (r : SolverBC)
    (rv : ℚ) (lin : Bool) (x y : List ℚ) (c : Bool) :
    (sp.set_boundary l lv r rv lin).set_data x y c =
      ⟨l, r, lv, rv, lin, x, y, c⟩ := rfl

/-- The per-axis solver produced by a non-empty set_points call: boundary
kinds translated from the stored configuration, the linear-extrapolation
slot holding the cubic_spline argument, the shared parameterization, the
per-axis samples, and the solver's default fitting flag. -/
def fittedSolver (s : SplineCurveInterpolation) (cs : Bool) (T ys : List ℚ) :
    SplineInterpolation :=
  ⟨toSolverBC s.left, toSolverBC s.right, s.left_value, s.right_value, cs, T, ys,
    SplineInterpolation.cubicDefault⟩

theorem set_points_fields (s : SplineCurveInterpolation) (dist : Pt → Pt → ℚ)
    (points : List Pt) (cs : Bool) (hne : points ≠ []) :
    (s.set_points dist points cs).dim = (points.headD []).length ∧
    (s.set_points dist points cs).total_length =
      (chordParams dist points).getD ((chordParams dist points).length - 1) 0 ∧
    (s.set_points dist points cs).interpolators =
      (List.range (points.headD []).length).map fun j =>
        fittedSolver s cs (chordParams dist points) (points.map fun p => p.getD j 0) := by
  have he : points.isEmpty = false := by
    cases points with
    | nil => simp at hne
    | cons a t => simp
  refine ⟨?_, ?_, ?_⟩ <;>
    simp [SplineCurveInterpolation.set_points, he, solver_config, fittedSolver]

theorem set_points_interp_getD (s : SplineCurveInterpolation) (dist : Pt → Pt → ℚ)
    (points : List Pt) (cs : Bool) (hne : points ≠ []) (j : ℕ)
    (hj : j < (points.headD []).length) :
    (s.set_points dist points cs).interpolators.getD j default =
      fittedSolver s cs (chordParams dist points) (points.map fun p => p.getD j 0) := by
  rw [(set_points_fields s dist points cs hne).2.2]
  exact getD_range_map _ _ _ _ hj

theorem eval_f_fitted (s : SplineCurveInterpolation) (dist : Pt → Pt → ℚ)
    (points : List Pt) (cs : Bool) (u : ℚ) (hne : points ≠ []) :
    (s.set_points dist points cs).eval_f u =
      (List.range (points.headD []).length).map fun j =>
        splineEval cs (chordParams dist points) (points.map fun p => p.getD j 0)
          ((fittedSolver s cs (chordParams dist points)
              (points.map fun p => p.getD j 0)).coeffsM)
          (u * (chordParams dist points).getD ((chordParams dist points).length - 1) 0) := by
  obtain ⟨hd, ht, _⟩ := set_points_fields s dist points cs hne
  rw [SplineCurveInterpolation.eval_f, hd, ht]
  apply List.map_congr_left
  intro j hj
  rw [set_points_interp_getD s dist points cs hne j (by simpa using hj)]
  rfl

theorem run_nil (dist : Pt → Pt → ℚ) (s : SplineCurveInterpolation) :
    run dist s [] = some s := rfl

theorem run_bset (dist : Pt → Pt → ℚ) (s : SplineCurveInterpolation) (l : BoundaryType)
    (lv : ℚ) (r : BoundaryType) (rv : ℚ) (lin : Bool) (rest : List Op) :
    run dist s (Op.bset l lv r rv lin :: rest) =
      match s.set_boundary l lv r rv lin with
      | some s2 => run dist s2 rest
      | none => none := rfl

theorem run_pset (dist : Pt → Pt → ℚ) (s : SplineCurveInterpolation) (pts : List Pt)
    (cs : Bool) (rest : List Op) :
    run dist s (Op.pset pts cs :: rest) = run dist (s.set_points dist pts cs) rest := rfl

theorem run_evalAt (dist : Pt → Pt → ℚ) (s : SplineCurveInterpolation) (u : ℚ)
    (rest : List Op) :
    run dist s (Op.evalAt u :: rest) = run dist s rest := rfl

theorem stripLin_fields (s1 s2 : SplineCurveInterpolation)
    (h : stripLinState s1 = stripLinState s2) :
    s1.left = s2.left ∧ s1.right = s2.right ∧ s1.left_value = s2.left_value ∧
    s1.right_value = s2.right_value ∧ s1.dim = s2.dim ∧
    s1.interpolators = s2.interpolators ∧ s1.total_length = s2.total_length := by
  cases s1
  cases s2
  simp only [stripLinState, SplineCurveInterpolation.mk.injEq] at h
  exact ⟨h.1, h.2.1, h.2.2.1, h.2.2.2.1, h.2.2.2.2.2.1, h.2.2.2.2.2.2.1, h.2.2.2.2.2.2.2⟩

theorem scExt (x y : SplineCurveInterpolation) (e1 : x.left = y.left)
    (e2 : x.right = y.right) (e3 : x.left_value = y.left_value)
    (e4 : x.right_value = y.right_value)
    (e5 : x.linear_extrapolation = y.linear_extrapolation) (e6 : x.dim = y.dim)
    (e7 : x.interpolators = y.interpolators) (e8 : x.total_length = y.total_length) :
    x = y := by
  cases x
  cases y
  simp only [SplineCurveInterpolation.mk.injEq]
  exact ⟨e1, e2, e3, e4, e5, e6, e7, e8⟩

theorem set_points_empty (s : SplineCurveInterpolation) (dist : Pt → Pt → ℚ)
    (pts : List Pt) (cs : Bool) (he : pts.isEmpty = true) :
    s.set_points dist pts cs = s := by
  simp only [SplineCurveInterpolation.set_points]
  rw [if_pos he]

theorem set_points_config (s : SplineCurveInterpolation) (dist : Pt → Pt → ℚ)
    (pts : List Pt) (cs : Bool) :
    (s.set_points dist pts cs).left = s.left ∧
    (s.set_points dist pts cs).right = s.right ∧
    (s.set_points dist pts cs).left_value = s.left_value ∧
    (s.set_points dist pts cs).right_value = s.right_value ∧
    (s.set_points dist pts cs).linear_extrapolation = s.linear_extrapolation := by
  by_cases he : pts.isEmpty
  · rw [set_points_empty s dist pts cs he]
    exact ⟨rfl, rfl, rfl, rfl, rfl⟩
  · simp only [SplineCurveInterpolation.set_points]
    rw [if_neg he]
    exact ⟨rfl, rfl, rfl, rfl, rfl⟩

theorem fittedSolver_congr (s1 s2 : SplineCurveInterpolation) (h1 : s1.left = s2.left)
    (h2 : s1.right = s2.right) (h3 : s1.left_value = s2.left_value)
    (h4 : s1.right_value = s2.right_value) (cs : Bool) (T ys : List ℚ) :
    fittedSolver s1 cs T ys = fittedSolver s2 cs T ys := by
  rw [fittedSolver, fittedSolver, h1, h2, h3, h4]

theorem strip_set_boundary (s1 s2 : SplineCurveInterpolation) (l : BoundaryType) (lv : ℚ)
    (r : BoundaryType) (rv : ℚ) (b1 b2 : Bool)
    (h : stripLinState s1 = stripLinState s2) :
    Option.map stripLinState (s1.set_boundary l lv r rv b1) =
      Option.map stripLinState (s2.set_boundary l lv r rv b2) := by
  obtain ⟨h1, h2, h3, h4, h5, h6, h7⟩ := stripLin_fields s1 s2 h
  by_cases hc : s2.interpolators.length = 0
  · have hc1 : s1.interpolators.length = 0 := by
      rw [h6]
      exact hc
    rw [SplineCurveInterpolation.set_boundary, SplineCurveInterpolation.set_boundary,
      if_pos hc1, if_pos hc]
    refine congrArg some ?_
    exact scExt _ _ rfl rfl rfl rfl rfl h5 h6 h7
  · have hc1 : ¬ s1.interpolators.length = 0 := by
      rw [h6]
      exact hc
    rw [SplineCurveInterpolation.set_boundary, SplineCurveInterpolation.set_boundary,
      if_neg hc1, if_neg hc]

theorem strip_set_points (dist : Pt → Pt → ℚ) (s1 s2 : SplineCurveInterpolation)
    (pts : List Pt) (cs : Bool) (h : stripLinState s1 = stripLinState s2) :
    stripLinState (s1.set_points dist pts cs) = stripLinState (s2.set_points dist pts cs) := by
  obtain ⟨h1, h2, h3, h4, h5, h6, h7⟩ := stripLin_fields s1 s2 h
  by_cases he : pts.isEmpty
  · rw [set_points_empty s1 dist pts cs he, set_points_empty s2 dist pts cs he]
    exact h
  · have hne : pts ≠ [] := by
      cases pts with
      | nil => simp at he
      | cons a t => simp
    obtain ⟨d1, t1, i1⟩ := set_points_fields s1 dist pts cs hne
    obtain ⟨d2, t2, i2⟩ := set_points_fields s2 dist pts cs hne
    obtain ⟨c1l, c1r, c1lv, c1rv, _⟩ := set_points_config s1 dist pts cs
    obtain ⟨c2l, c2r, c2lv, c2rv, _⟩ := set_points_config s2 dist pts cs
    have hmap : (List.range (pts.headD []).length).map
          (fun j => fittedSolver s1 cs (chordParams dist pts)
            (pts.map fun p => p.getD j 0)) =
        (List.range (pts.headD []).length).map
          (fun j => fittedSolver s2 cs (chordParams dist pts)
            (pts.map fun p => p.getD j 0)) := by
      apply List.map_congr_left
      intro j hj
      exact fittedSolver_congr s1 s2 h1 h2 h3 h4 cs _ _
    apply scExt
    · exact (c1l.trans h1).trans c2l.symm
    · exact (c1r.trans h2).trans c2r.symm
    · exact (c1lv.trans h3).trans c2lv.symm
    · exact (c1rv.trans h4).trans c2rv.symm
    · rfl
    · exact d1.trans d2.symm
    · exact i1.trans (hmap.trans i2.symm)
    · exact t1.trans t2.symm

theorem strip_eval_f (s1 s2 : SplineCurveInterpolation) (u : ℚ)
    (h : stripLinState s1 = stripLinState s2) : s1.eval_f u = s2.eval_f u := by
  obtain ⟨_, _, _, _, h5, h6, h7⟩ := stripLin_fields s1 s2 h
  simp only [SplineCurveInterpolation.eval_f, h5, h6, h7]

theorem run_striplin (dist : Pt → Pt → ℚ) (ops1 : List Op) :
    ∀ (ops2 : List Op) (s1 s2 : SplineCurveInterpolation),
      stripLinState s1 = stripLinState s2 →
      ops1.map stripLinOp = ops2.map stripLinOp →
      Option.map stripLinState (run dist s1 ops1) =
        Option.map stripLinState (run dist s2 ops2) := by
  induction ops1 with
  | nil =>
      intro ops2 s1 s2 hs hm
      have h2 : ops2 = [] := List.map_eq_nil_iff.mp hm.symm
      rw [h2, run_nil, run_nil]
      exact congrArg some hs
  | cons o t1 ih =>
      intro ops2 s1 s2 hs hm
      cases ops2 with
      | nil => simp at hm
      | cons o2 t2 =>
          simp only [List.map_cons, List.cons.injEq] at hm
          obtain ⟨ho, ht⟩ := hm
          cases o with
          | bset l lv r rv b1 =>
              cases o2 with
              | bset l2 lv2 r2 rv2 b2 =>
                  simp only [stripLinOp, Op.bset.injEq] at ho
                  obtain ⟨e1, e2, e3, e4, _⟩ := ho
                  subst e1
                  subst e2
                  subst e3
                  subst e4
                  have hsb := strip_set_boundary s1 s2 l lv r rv b1 b2 hs
                  rw [run_bset, run_bset]
                  cases e5 : s1.set_boundary l lv r rv b1 with
                  | none =>
                      cases e6 : s2.set_boundary l lv r rv b2 with
                      | none => rfl
                      | some s4 =>
                          rw [e5, e6] at hsb
                          exact Option.noConfusion hsb
                  | some s3 =>
                      cases e6 : s2.set_boundary l lv r rv b2 with
                      | none =>
                          rw [e5, e6] at hsb
                          exact Option.noConfusion hsb
                      | some s4 =>
                          rw [e5, e6] at hsb
                          exact ih t2 s3 s4 (Option.some.inj hsb) ht
              | pset pts cs => simp [stripLinOp] at ho
              | evalAt u => simp [stripLinOp] at ho
          | pset pts cs =>
              cases o2 with
              | bset l2 lv2 r2 rv2 b2 => simp [stripLinOp] at ho
              | pset pts2 cs2 =>
                  simp only [stripLinOp, Op.pset.injEq] at ho
                  obtain ⟨e1, e2⟩ := ho
                  subst e1
                  subst e2
                  rw [run_pset, run_pset]
                  exact ih t2 _ _ (strip_set_points dist s1 s2 pts cs hs) ht
              | evalAt u => simp [stripLinOp] at ho
          | evalAt u =>
              cases o2 with
              | bset l2 lv2 r2 rv2 b2 => simp [stripLinOp] at ho
              | pset pts2 cs2 => simp [stripLinOp] at ho
              | evalAt u2 =>
                  rw [run_evalAt, run_evalAt]
                  exact ih t2 s1 s2 hs ht

theorem set_boundary_some (s s2 : SplineCurveInterpolation) (l : BoundaryType) (lv : ℚ)
    (r : BoundaryType) (rv : ℚ) (lin : Bool)
    (h : s.set_boundary l lv r rv lin = some s2) :
    s2.interpolators = s.interpolators ∧ s2.dim = s.dim := by
  rw [SplineCurveInterpolation.set_boundary] at h
  by_cases hc : s.interpolators.length = 0
  · rw [if_pos hc] at h
    rw [← Option.some.inj h]
    exact ⟨rfl, rfl⟩
  · rw [if_neg hc] at h
    exact Option.noConfusion h

theorem set_points_inv (dist : Pt → Pt → ℚ) (s : SplineCurveInterpolation)
    (pts : List Pt) (cs : Bool) (h : s.interpolators.length = s.dim) :
    (s.set_points dist pts cs).interpolators.length = (s.set_points dist pts cs).dim := by
  by_cases he : pts.isEmpty
  · simp only [SplineCurveInterpolation.set_points]
    rw [if_pos he]
    exact h
  · simp only [SplineCurveInterpolation.set_points]
    rw [if_neg he]
    simp

theorem run_inv (dist : Pt → Pt → ℚ) (ops : List Op) :
    ∀ (s s2 : SplineCurveInterpolation), s.interpolators.length = s.dim →
      run dist s ops = some s2 → s2.interpolators.length = s2.dim := by
  induction ops with
  | nil =>
      intro s s2 h hr
      rw [run_nil, Option.some.injEq] at hr
      rw [← hr]
      exact h
  | cons o t ih =>
      intro s s2 h hr
      cases o with
      | bset l lv r rv lin =>
          rw [run_bset] at hr
          cases e : s.set_boundary l lv r rv lin with
          | none =>
              rw [e] at hr
              simp at hr
          | some s3 =>
              rw [e] at hr
              simp only at hr
              obtain ⟨hi, hd⟩ := set_boundary_some s s3 l lv r rv lin e
              exact ih s3 s2 (by rw [hi, hd, h]) hr
      | pset pts cs =>
          rw [run_pset] at hr
          exact ih _ s2 (set_points_inv dist s pts cs h) hr
      | evalAt u =>
          rw [run_evalAt] at hr
          exact ih s s2 h hr

theorem dDisc_nonneg : ∀ p q : Pt, 0 ≤ dDisc p q := by
  intro p q
  rw [dDisc]
  split
  · exact le_refl 0
  · exact zero_le_one

theorem dDisc_sep : ∀ p q : Pt, dDisc p q = 0 → p = q := by
  intro p q h
  rw [dDisc] at h
  split at h
  · assumption
  · exact absurd h one_ne_zero

theorem dDisc_self : ∀ q : Pt, dDisc q q = 0 := by
  intro q
  simp [dDisc]

/-- C6: calling set_points with the empty point sequence is a no-op: the
whole state (boundary conditions, dimension, total length and any
previously fitted solver set) is returned unchanged, as defined
behavior. -/
theorem c6_empty_set_points_noop (dist : Pt → Pt → ℚ) (s : SplineCurveInterpolation)
    (cs : Bool) : s.set_points dist [] cs = s := rfl

section ConcreteEvaluation

attribute [local semireducible] Rat.mul Rat.inv Rat.add Rat.sub Rat.ofScientific

/-- C1: in set_points, for each axis a per-axis solver is configured and
fitted, but not as the claim states: the solver receives the cubic_spline
argument in its linear-extrapolation slot rather than the stored
linear_extrapolation flag, and the fit call omits the fitting flag so the
solver default (cubic) is always used.  Concretely, from the
default-constructed interpolator (stored flag false) a cubic fit makes
every solver carry linear-extrapolation true, and a linear fit
(cubic_spline = false) still leaves every solver fitting cubic. -/
theorem c1_per_axis_solver_configuration :
    SplineCurveInterpolation.init.linear_extrapolation = false ∧
    ((SplineCurveInterpolation.init.set_points distEx examplePoints
        true).interpolators.getD 0 default).force_linear_extrapolation = true ∧
    ((SplineCurveInterpolation.init.set_points distEx examplePoints
        true).interpolators.getD 1 default).force_linear_extrapolation = true ∧
    ((SplineCurveInterpolation.init.set_points distEx examplePoints
        false).interpolators.getD 0 default).m_cubic = true ∧
    ((SplineCurveInterpolation.init.set_points distEx examplePoints
        false).interpolators.getD 1 default).m_cubic = true := by
  have hne : examplePoints ≠ [] := by decide
  have hj0 : (0 : ℕ) < (examplePoints.headD []).length := by decide
  have hj1 : (1 : ℕ) < (examplePoints.headD []).length := by decide
  refine ⟨rfl, ?_, ?_, ?_, ?_⟩
  · rw [set_points_interp_getD SplineCurveInterpolation.init distEx examplePoints true
      hne 0 hj0]
    rfl
  · rw [set_points_interp_getD SplineCurveInterpolation.init distEx examplePoints true
      hne 1 hj1]
    rfl
  · rw [set_points_interp_getD SplineCurveInterpolation.init distEx examplePoints false
      hne 0 hj0]
    rfl
  · rw [set_points_interp_getD SplineCurveInterpolation.init distEx examplePoints false
      hne 1 hj1]
    rfl

/-- C2: with cubic_spline = false the claim demands the piecewise-linear
interpolant, hence eval_f (1/4) = (1/2, 0) on the example points; the
code fits cubic regardless (the fit call omits the flag), and the result
is (19/32, -3/32). -/
theorem c2_linear_fit_eval :
    (SplineCurveInterpolation.init.set_points distEx examplePoints false).eval_f (1 / 4) =
      [19 / 32, -3 / 32] ∧
    ¬ (SplineCurveInterpolation.init.set_points distEx examplePoints false).eval_f (1 / 4) =
      [1 / 2, 0] := by
  have hne : examplePoints ≠ [] := by decide
  have hj0 : (0 : ℕ) < (examplePoints.headD []).length := by decide
  have hj1 : (1 : ℕ) < (examplePoints.headD []).length := by decide
  have hcp : chordParams distEx examplePoints = [0, 1, 2] := by decide
  have hys0 : examplePoints.map (fun p => p.getD 0 0) = [0, 1, 1] := by decide
  have hys1 : examplePoints.map (fun p => p.getD 1 0) = [0, 0, 1] := by decide
  have hdim : (SplineCurveInterpolation.init.set_points distEx examplePoints false).dim =
      2 := by
    rw [(set_points_fields SplineCurveInterpolation.init distEx examplePoints false
      hne).1]
    rfl
  have htot : (SplineCurveInterpolation.init.set_points distEx examplePoints
      false).total_length = 2 := by
    rw [(set_points_fields SplineCurveInterpolation.init distEx examplePoints false
      hne).2.1, hcp]
    rfl
  have hM0 : (fittedSolver SplineCurveInterpolation.init false [0, 1, 2]
      [0, 1, 1]).coeffsM = [0, -(3 : ℚ) / 2, 0] := by
    decide
  have hM1 : (fittedSolver SplineCurveInterpolation.init false [0, 1, 2]
      [0, 0, 1]).coeffsM = [0, (3 : ℚ) / 2, 0] := by
    decide
  have he0 : ((SplineCurveInterpolation.init.set_points distEx examplePoints
        false).interpolators.getD 0 default).evaluate
      (1 / 4 * (SplineCurveInterpolation.init.set_points distEx examplePoints
        false).total_length) = 19 / 32 := by
    rw [set_points_interp_getD SplineCurveInterpolation.init distEx examplePoints false
      hne 0 hj0, htot, hcp, hys0, SplineInterpolation.evaluate, hM0]
    decide
  have he1 : ((SplineCurveInterpolation.init.set_points distEx examplePoints
        false).interpolators.getD 1 default).evaluate
      (1 / 4 * (SplineCurveInterpolation.init.set_points distEx examplePoints
        false).total_length) = -3 / 32 := by
    rw [set_points_interp_getD SplineCurveInterpolation.init distEx examplePoints false
      hne 1 hj1, htot, hcp, hys1, SplineInterpolation.evaluate, hM1]
    decide
  have heq : (SplineCurveInterpolation.init.set_points distEx examplePoints
      false).eval_f (1 / 4) = [19 / 32, -3 / 32] := by
    rw [SplineCurveInterpolation.eval_f, hdim,
      show List.range 2 = [0, 1] from rfl, List.map_cons, List.map_cons, List.map_nil,
      he0, he1]
  refine ⟨heq, ?_⟩
  rw [heq]
  decide

/-- C3 counterexample: calling eval_f before any successful fit does not
fail fast — the code contains no assertion there and returns the
default-constructed point (no coordinates, since the stored dimension is
still 0), contradicting the claim that every precondition violation is
assertion-checked. -/
theorem c3_eval_no_assert_counterexample :
    SplineCurveInterpolation.init.eval_f (1 / 2) = [] := rfl

/-- C3 amended: only set_boundary after a fit is assertion-checked
(interpolators_.size() == 0 fails, embedded as the none result); eval_f
before any fit performs no check and silently returns the
default-constructed point (the dimension is 0, so the coordinate loop
runs zero times). -/
theorem c3_assertion_checks :
    (∀ (s : SplineCurveInterpolation) (l : BoundaryType) (lv : ℚ) (r : BoundaryType)
        (rv : ℚ) (lin : Bool), s.interpolators.length ≠ 0 →
        s.set_boundary l lv r rv lin = none) ∧
    (∀ (s : SplineCurveInterpolation) (u : ℚ), s.dim = 0 → s.eval_f u = []) := by
  constructor
  · intro s l lv r rv lin hlen
    rw [SplineCurveInterpolation.set_boundary, if_neg hlen]
  · intro s u hd
    rw [SplineCurveInterpolation.eval_f, hd]
    rfl

theorem c3_witness :
    (SplineCurveInterpolation.init.set_points dDisc [[0], [1]] true).interpolators.length ≠
      0 ∧
    (SplineCurveInterpolation.init.set_points dDisc [[0], [1]] true).set_boundary
      BoundaryType.first_deriv 1 BoundaryType.second_deriv 0 true = none ∧
    SplineCurveInterpolation.init.dim = 0 ∧
    SplineCurveInterpolation.init.eval_f (3 / 4) = [] := by
  have hne : ([[0], [1]] : List Pt) ≠ [] := by decide
  have hlen : (SplineCurveInterpolation.init.set_points dDisc [[0], [1]]
      true).interpolators.length ≠ 0 := by
    rw [(set_points_fields SplineCurveInterpolation.init dDisc [[0], [1]] true hne).2.2]
    simp
  exact ⟨hlen, c3_assertion_checks.1 _ _ _ _ _ _ hlen, rfl,
    c3_assertion_checks.2 _ _ rfl⟩

/-- C7: a second set_points call fully discards the previous fit: for two
states agreeing on the boundary configuration (which is all set_points
reads besides its arguments), fitting the same sequence yields the same
dimension, total length and solver set, hence identical eval_f results —
no residual influence from any previously fitted state. -/
theorem c7_refit_discards (dist : Pt → Pt → ℚ) (s1 s2 : SplineCurveInterpolation)
    (pts : List Pt) (cs : Bool) (u : ℚ) (hl : s1.left = s2.left)
    (hr : s1.right = s2.right) (hlv : s1.left_value = s2.left_value)
    (hrv : s1.right_value = s2.right_value) (hne : pts ≠ []) :
    (s1.set_points dist pts cs).dim = (s2.set_points dist pts cs).dim ∧
    (s1.set_points dist pts cs).total_length = (s2.set_points dist pts cs).total_length ∧
    (s1.set_points dist pts cs).interpolators = (s2.set_points dist pts cs).interpolators ∧
    (s1.set_points dist pts cs).eval_f u = (s2.set_points dist pts cs).eval_f u := by
  obtain ⟨d1, t1, i1⟩ := set_points_fields s1 dist pts cs hne
  obtain ⟨d2, t2, i2⟩ := set_points_fields s2 dist pts cs hne
  have hmap : (List.range (pts.headD []).length).map
        (fun j => fittedSolver s1 cs (chordParams dist pts)
          (pts.map fun p => p.getD j 0)) =
      (List.range (pts.headD []).length).map
        (fun j => fittedSolver s2 cs (chordParams dist pts)
          (pts.map fun p => p.getD j 0)) := by
    apply List.map_congr_left
    intro j hj
    exact fittedSolver_congr s1 s2 hl hr hlv hrv cs _ _
  have hd := d1.trans d2.symm
  have ht := t1.trans t2.symm
  have hi := i1.trans (hmap.trans i2.symm)
  refine ⟨hd, ht, hi, ?_⟩
  simp only [SplineCurveInterpolation.eval_f, hd, ht, hi]

theorem c7_witness :
    (SplineCurveInterpolation.init.set_points dDisc [[5], [7]] true).left =
      SplineCurveInterpolation.init.left ∧
    (SplineCurveInterpolation.init.set_points dDisc [[5], [7]] true).right =
      SplineCurveInterpolation.init.right ∧
    (SplineCurveInterpolation.init.set_points dDisc [[5], [7]] true).left_value =
      SplineCurveInterpolation.init.left_value ∧
    (SplineCurveInterpolation.init.set_points dDisc [[5], [7]] true).right_value =
      SplineCurveInterpolation.init.right_value ∧
    ([[0], [2]] : List Pt) ≠ [] ∧
    ((SplineCurveInterpolation.init.set_points dDisc [[5], [7]] true).set_points dDisc
        [[0], [2]] true).eval_f (1 / 2) =
      (SplineCurveInterpolation.init.set_points dDisc [[0], [2]] true).eval_f (1 / 2) := by
  have hc := set_points_config SplineCurveInterpolation.init dDisc [[5], [7]] true
  have hne : ([[0], [2]] : List Pt) ≠ [] := by decide
  exact ⟨hc.1, hc.2.1, hc.2.2.1, hc.2.2.2.1, hne,
    (c7_refit_discards dDisc _ _ [[0], [2]] true (1 / 2) hc.1 hc.2.1 hc.2.2.1
      hc.2.2.2.1 hne).2.2.2⟩

/-- C9: the linear_extrapolation argument stored by set_boundary never
influences any observable result: two call sequences that are identical
except for the linear-extrapolation values passed to set_boundary (their
erasures coincide) produce runs whose eval_f results agree at every
parameter (the stored flag is written but never read by set_points or
eval_f). -/
theorem c9_lin_flag_unobservable (dist : Pt → Pt → ℚ) (ops1 ops2 : List Op) (u : ℚ)
    (h : ops1.map stripLinOp = ops2.map stripLinOp) :
    Option.map (fun st => st.eval_f u) (run dist SplineCurveInterpolation.init ops1) =
      Option.map (fun st => st.eval_f u) (run dist SplineCurveInterpolation.init ops2) := by
  have hr := run_striplin dist ops1 ops2 SplineCurveInterpolation.init
    SplineCurveInterpolation.init rfl h
  cases e1 : run dist SplineCurveInterpolation.init ops1 with
  | none =>
      cases e2 : run dist SplineCurveInterpolation.init ops2 with
      | none => rfl
      | some s2 =>
          rw [e1, e2] at hr
          exact Option.noConfusion hr
  | some s1 =>
      cases e2 : run dist SplineCurveInterpolation.init ops2 with
      | none =>
          rw [e1, e2] at hr
          exact Option.noConfusion hr
      | some s2 =>
          rw [e1, e2] at hr
          exact congrArg some (strip_eval_f s1 s2 u (Option.some.inj hr))

theorem c9_witness :
    ([Op.bset BoundaryType.first_deriv 1 BoundaryType.second_deriv 2 true,
        Op.pset examplePoints true, Op.evalAt (1 / 3)].map stripLinOp =
      [Op.bset BoundaryType.first_deriv 1 BoundaryType.second_deriv 2 false,
        Op.pset examplePoints true, Op.evalAt (1 / 3)].map stripLinOp) ∧
    Option.map (fun st => st.eval_f (1 / 3))
        (run distEx SplineCurveInterpolation.init
          [Op.bset BoundaryType.first_deriv 1 BoundaryType.second_deriv 2 true,
            Op.pset examplePoints true, Op.evalAt (1 / 3)]) =
      Option.map (fun st => st.eval_f (1 / 3))
        (run distEx SplineCurveInterpolation.init
          [Op.bset BoundaryType.first_deriv 1 BoundaryType.second_deriv 2 false,
            Op.pset examplePoints true, Op.evalAt (1 / 3)]) :=
  ⟨rfl, c9_lin_flag_unobservable distEx _ _ (1 / 3) rfl⟩

/-- C10: the invariant interpolators_.size() == dim_ holds after
construction and is preserved by every operation, so in any reachable
state the per-axis indexing loop of eval_f (indices below dim_) stays
within the solver container. -/
theorem c10_solver_count_invariant (dist : Pt → Pt → ℚ) (ops : List Op)
    (s2 : SplineCurveInterpolation)
    (h : run dist SplineCurveInterpolation.init ops = some s2) :
    s2.interpolators.length = s2.dim ∧ s2.dim ≤ s2.interpolators.length := by
  have h1 := run_inv dist ops SplineCurveInterpolation.init s2 rfl h
  exact ⟨h1, le_of_eq h1.symm⟩

theorem c10_witness :
    run dDisc SplineCurveInterpolation.init
        [Op.bset BoundaryType.first_deriv 1 BoundaryType.second_deriv 0 true,
          Op.pset [[0], [1]] true, Op.evalAt (1 / 2)] = some c10State ∧
    c10State.interpolators.length = c10State.dim := by
  refine ⟨rfl, ?_⟩
  exact (c10_solver_count_invariant dDisc
    [Op.bset BoundaryType.first_deriv 1 BoundaryType.second_deriv 0 true,
      Op.pset [[0], [1]] true, Op.evalAt (1 / 2)] _ rfl).1

/-- C5: set_points computes the parameterization as cumulative chord
length (parameter[0] = 0 and parameter[i+1] = parameter[i] + distance of
the consecutive points), the sequence is non-decreasing whenever the
distance function is nonnegative, every per-axis solver is fitted against
it, and the stored total length equals its last entry. -/
theorem c5_chord_parameterization (dist : Pt → Pt → ℚ) (s : SplineCurveInterpolation)
    (pts : List Pt) (cs : Bool) (hne : pts ≠ []) (hnn : ∀ p q, 0 ≤ dist p q) :
    (chordParams dist pts).getD 0 0 = 0 ∧
    (∀ i, i + 1 < (chordParams dist pts).length →
      (chordParams dist pts).getD (i + 1) 0 =
        (chordParams dist pts).getD i 0 + dist (pts.getD i []) (pts.getD (i + 1) [])) ∧
    (∀ i, i + 1 < (chordParams dist pts).length →
      (chordParams dist pts).getD i 0 ≤ (chordParams dist pts).getD (i + 1) 0) ∧
    (∀ j, j < (s.set_points dist pts cs).dim →
      ((s.set_points dist pts cs).interpolators.getD j default).m_x =
        chordParams dist pts) ∧
    (s.set_points dist pts cs).total_length =
      (chordParams dist pts).getD ((chordParams dist pts).length - 1) 0 := by
  cases pts with
  | nil => exact absurd rfl hne
  | cons p ps =>
      have hcp : chordParams dist (p :: ps) = chordAux dist p ps 0 := rfl
      refine ⟨?_, ?_, ?_, ?_, ?_⟩
      · rw [hcp]
        exact chordAux_head dist p ps 0
      · intro i hi
        rw [hcp] at hi ⊢
        exact chordAux_rec dist p ps 0 i hi
      · intro i hi
        rw [hcp] at hi ⊢
        rw [chordAux_rec dist p ps 0 i hi]
        have := hnn ((p :: ps).getD i []) ((p :: ps).getD (i + 1) [])
        linarith
      · intro j hj
        rw [(set_points_fields s dist (p :: ps) cs hne).1] at hj
        rw [set_points_interp_getD s dist (p :: ps) cs hne j hj]
        rfl
      · exact (set_points_fields s dist (p :: ps) cs hne).2.1

theorem c5_witness :
    (examplePoints ≠ []) ∧ (∀ p q : Pt, 0 ≤ dDisc p q) ∧
    (chordParams dDisc examplePoints).getD 0 0 = 0 ∧
    (SplineCurveInterpolation.init.set_points dDisc examplePoints true).total_length =
      (chordParams dDisc examplePoints).getD
        ((chordParams dDisc examplePoints).length - 1) 0 :=
  ⟨by decide, dDisc_nonneg,
    (c5_chord_parameterization dDisc SplineCurveInterpolation.init examplePoints true
      (by decide) dDisc_nonneg).1,
    (c5_chord_parameterization dDisc SplineCurveInterpolation.init examplePoints true
      (by decide) dDisc_nonneg).2.2.2.2⟩

theorem replicate_getD_zero (n i : ℕ) : (List.replicate n (0 : ℚ)).getD i 0 = 0 := by
  induction n generalizing i with
  | zero => simp
  | succ k ih =>
      cases i with
      | zero => simp [List.replicate_succ]
      | succ m =>
          rw [List.replicate_succ, List.getD_cons_succ]
          exact ih m

/-- C8: fitting a non-empty sequence of identical points stores a total
length of 0, every evaluation runs at parameter u * 0 = 0, and eval_f
returns the identical point, with no domain error (the evaluation is a
total function). -/
theorem c8_identical_points (dist : Pt → Pt → ℚ) (s : SplineCurveInterpolation)
    (pts : List Pt) (p : Pt) (cs : Bool) (u : ℚ) (hzero : dist p p = 0)
    (hall : ∀ q ∈ pts, q = p) (hne : pts ≠ []) :
    (s.set_points dist pts cs).total_length = 0 ∧
    u * (s.set_points dist pts cs).total_length = 0 ∧
    (s.set_points dist pts cs).eval_f u = p := by
  cases pts with
  | nil => exact absurd rfl hne
  | cons q qs =>
      have hq : q = p := hall q (by simp)
      have hrep : chordParams dist (q :: qs) = List.replicate (qs.length + 1) 0 := by
        show chordAux dist q qs 0 = _
        rw [hq]
        exact chordAux_const dist p qs 0 hzero (fun r hr => hall r (by simp [hr]))
      have hlen : (chordParams dist (q :: qs)).length = qs.length + 1 := by
        rw [hrep]
        simp
      have hgen : ∀ i, (chordParams dist (q :: qs)).getD i 0 = 0 := by
        intro i
        rw [hrep]
        exact replicate_getD_zero (qs.length + 1) i
      have htot : (s.set_points dist (q :: qs) cs).total_length = 0 := by
        rw [(set_points_fields s dist (q :: qs) cs hne).2.1]
        exact hgen _
      refine ⟨htot, by rw [htot, mul_zero], ?_⟩
      rw [eval_f_fitted s dist (q :: qs) cs u hne]
      have hb : ((q :: qs).headD []).length = p.length := by
        rw [List.headD_cons, hq]
      rw [hb]
      apply map_range_coord
      intro j hj
      have ht0 : u * (chordParams dist (q :: qs)).getD
          ((chordParams dist (q :: qs)).length - 1) 0 = 0 := by
        rw [hgen, mul_zero]
      rw [ht0]
      have key : ∀ M : List ℚ,
          splineEval cs (chordParams dist (q :: qs))
            ((q :: qs).map fun r => r.getD j 0) M 0 =
          ((q :: qs).map fun r => r.getD j 0).getD
            ((chordParams dist (q :: qs)).length - 1) 0 := by
        intro M
        have hl := splineEval_at_last cs (chordParams dist (q :: qs))
          ((q :: qs).map fun r => r.getD j 0) M (by rw [hlen]; exact Nat.succ_ne_zero _)
        rw [hgen] at hl
        exact hl
      rw [key]
      rw [hlen]
      simp only [Nat.add_sub_cancel]
      rw [getD_map_lt (fun r => r.getD j 0) (q :: qs) qs.length 0 [] (by simp)]
      have hqlast : (q :: qs).getD qs.length [] = p := by
        have h1 := getD_last_eq_getLastD (q :: qs) [] (by simp)
        simp only [List.length_cons, Nat.add_sub_cancel] at h1
        rw [h1, hq]
        exact getLastD_all_eq p qs (fun r hr => hall r (by simp [hr]))
      rw [hqlast]

theorem c8_witness :
    dDisc ([2, 3] : Pt) [2, 3] = 0 ∧
    (∀ q ∈ ([[2, 3], [2, 3], [2, 3]] : List Pt), q = [2, 3]) ∧
    ([[2, 3], [2, 3], [2, 3]] : List Pt) ≠ [] ∧
    (SplineCurveInterpolation.init.set_points dDisc [[2, 3], [2, 3], [2, 3]]
      true).total_length = 0 ∧
    (SplineCurveInterpolation.init.set_points dDisc [[2, 3], [2, 3], [2, 3]]
      true).eval_f (1 / 3) = [2, 3] := by
  have h := c8_identical_points dDisc SplineCurveInterpolation.init
    [[2, 3], [2, 3], [2, 3]] [2, 3] true (1 / 3) (dDisc_self _) (by decide) (by decide)
  exact ⟨dDisc_self _, by decide, by decide, h.1, h.2.2⟩

/-- C4: for every non-empty sequence of points of a common dimension,
with the distance a genuine metric (nonnegative and separating), after
set_points the evaluation at 0 returns the first input point and the
evaluation at 1 returns the last input point: eval_f scales u by the
total chord length, so u = 0 and u = 1 hit the first and last knot, where
the fitted solver reproduces the samples. -/
theorem c4_endpoint_interpolation (dist : Pt → Pt → ℚ) (s : SplineCurveInterpolation)
    (pts : List Pt) (cs : Bool) (hne : pts ≠ []) (hnn : ∀ p q, 0 ≤ dist p q)
    (hsep : ∀ p q, dist p q = 0 → p = q)
    (hdim : ∀ p2 ∈ pts, p2.length = (pts.headD []).length) :
    (s.set_points dist pts cs).eval_f 0 = pts.headD [] ∧
    (s.set_points dist pts cs).eval_f 1 = pts.getLastD [] := by
  cases pts with
  | nil => exact absurd rfl hne
  | cons p ps =>
      have hcp : chordParams dist (p :: ps) = chordAux dist p ps 0 := rfl
      have hTlen : (chordParams dist (p :: ps)).length = ps.length + 1 := by
        rw [hcp]
        exact chordAux_length dist p ps 0
      have hTne : (chordParams dist (p :: ps)).length ≠ 0 := by
        rw [hTlen]
        exact Nat.succ_ne_zero _
      have hhead : (chordParams dist (p :: ps)).getD 0 0 = 0 := by
        rw [hcp]
        exact chordAux_head dist p ps 0
      have hlastge : 0 ≤ (chordParams dist (p :: ps)).getD
          ((chordParams dist (p :: ps)).length - 1) 0 := by
        rw [hcp]
        exact chordAux_last_ge dist hnn p ps 0
      have hLmem : (p :: ps).getLastD [] ∈ p :: ps := getLastD_mem _ _ (by simp)
      have hys_last : ∀ j, ((p :: ps).map fun r => r.getD j 0).getD
          ((chordParams dist (p :: ps)).length - 1) 0 =
          ((p :: ps).getLastD []).getD j 0 := by
        intro j
        rw [hTlen]
        simp only [Nat.add_sub_cancel]
        rw [getD_map_lt (fun r => r.getD j 0) (p :: ps) ps.length 0 [] (by simp)]
        have h1 := getD_last_eq_getLastD (p :: ps) [] (by simp)
        simp only [List.length_cons, Nat.add_sub_cancel] at h1
        rw [h1]
      constructor
      · rw [eval_f_fitted s dist (p :: ps) cs 0 hne]
        by_cases hz : (chordParams dist (p :: ps)).getD
            ((chordParams dist (p :: ps)).length - 1) 0 = 0
        · have hall : ∀ q ∈ ps, q = p := by
            apply chordAux_zero_all_eq dist hnn hsep p ps 0
            rw [hcp] at hz
            exact hz
          have hLp : (p :: ps).getLastD [] = p := getLastD_all_eq p ps hall
          apply map_range_coord
          intro j hj
          rw [zero_mul]
          have key : ∀ M : List ℚ,
              splineEval cs (chordParams dist (p :: ps))
                ((p :: ps).map fun r => r.getD j 0) M 0 =
              ((p :: ps).map fun r => r.getD j 0).getD
                ((chordParams dist (p :: ps)).length - 1) 0 := by
            intro M
            have hl := splineEval_at_last cs (chordParams dist (p :: ps))
              ((p :: ps).map fun r => r.getD j 0) M hTne
            rw [hz] at hl
            exact hl
          rw [key, hys_last j, hLp]
          rfl
        · have hpos : 0 < (chordParams dist (p :: ps)).getD
              ((chordParams dist (p :: ps)).length - 1) 0 :=
            lt_of_le_of_ne hlastge (Ne.symm hz)
          apply map_range_coord
          intro j hj
          rw [zero_mul]
          have key : ∀ M : List ℚ,
              splineEval cs (chordParams dist (p :: ps))
                ((p :: ps).map fun r => r.getD j 0) M 0 =
              ((p :: ps).map fun r => r.getD j 0).getD 0 0 := by
            intro M
            have hh := splineEval_at_head cs (chordParams dist (p :: ps))
              ((p :: ps).map fun r => r.getD j 0) M hTne (by rw [hhead]; exact hpos)
            rw [hhead] at hh
            exact hh
          rw [key]
          rw [getD_map_lt (fun r => r.getD j 0) (p :: ps) 0 0 [] (by simp)]
          rfl
      · rw [eval_f_fitted s dist (p :: ps) cs 1 hne]
        have hb : ((p :: ps).headD []).length = ((p :: ps).getLastD []).length := by
          have := hdim _ hLmem
          rw [this]
        rw [hb]
        apply map_range_coord
        intro j hj
        rw [one_mul]
        rw [splineEval_at_last cs (chordParams dist (p :: ps))
          ((p :: ps).map fun r => r.getD j 0) _ hTne]
        exact hys_last j

theorem c4_witness :
    (examplePoints ≠ []) ∧ (∀ p q : Pt, 0 ≤ dDisc p q) ∧
    (∀ p q : Pt, dDisc p q = 0 → p = q) ∧
    (∀ p2 ∈ examplePoints, p2.length = (examplePoints.headD []).length) ∧
    (SplineCurveInterpolation.init.set_points dDisc examplePoints true).eval_f 0 =
      [0, 0] ∧
    (SplineCurveInterpolation.init.set_points dDisc examplePoints true).eval_f 1 =
      [1, 1] := by
  have h := c4_endpoint_interpolation dDisc SplineCurveInterpolation.init examplePoints
    true (by decide) dDisc_nonneg dDisc_sep (by decide)
  refine ⟨by decide, dDisc_nonneg, dDisc_sep, by decide, ?_, ?_⟩
  · simpa [examplePoints] using h.1
  · simpa [examplePoints] using h.2

end ConcreteEvaluation

end Easy3d
